import Mathlib

/-!
Verification development for the PHP debug-statement manager
(`debugScanner.ts`, `extension.ts`, `debugManagerView.ts`).

Lines of source text are modelled as `List Char` (a JS string is a sequence
of UTF-16 code units; all inputs of interest here are within the BMP, where
this matches `Char` one-to-one).  JS `Array`s become `List`s, JS string
indices become `Nat`/`Int` (JS `indexOf` returns `-1` on failure and
`String.prototype.slice` accepts negative indices, both of which are
modelled faithfully below).  Asynchronous file I/O is modelled by passing
the file contents in as data; per-file `stat` size is a field of the file
record.  The mtime/content-hash cache of `scanFile` is not modelled: it only
short-circuits a re-scan of unchanged content with the previously computed
list, so it does not affect the value of any single completed scan.
-/

/-- JS `\s` / `trim` whitespace, restricted to the ASCII range that can occur
in a line of a source file. -/
def isWS (c : Char) : Bool :=
  c == ' ' || c == '\t' || c == '\n' || c == '\r' || c == '\x0b' || c == '\x0c'

/-- JS `\w` word character, used for `\b` word boundaries. -/
def isWordChar (c : Char) : Bool :=
  c.isAlpha || c.isDigit || c == '_'

def dropWS (s : List Char) : List Char := s.dropWhile isWS

def trimLeftWS (s : List Char) : List Char := s.dropWhile isWS

def trimRightWS (s : List Char) : List Char := (s.reverse.dropWhile isWS).reverse

/-- JS `String.prototype.trim`. -/
def trimWS (s : List Char) : List Char := trimRightWS (trimLeftWS s)

/-- `p` is a literal prefix of `s`. -/
def startsWithSeq : List Char → List Char → Bool
  | [], _ => true
  | _ :: _, [] => false
  | p :: ps, c :: cs => p == c && startsWithSeq ps cs

/-- JS `String.prototype.includes` for a literal pattern. -/
def containsSeq (t : List Char) : List Char → Bool
  | [] => startsWithSeq t []
  | c :: cs => startsWithSeq t (c :: cs) || containsSeq t cs

/-- JS `String.prototype.indexOf` for a literal pattern (`none` = JS `-1`). -/
def indexOfSub (t : List Char) : List Char → Option Nat
  | [] => if startsWithSeq t [] then some 0 else none
  | c :: cs =>
    if startsWithSeq t (c :: cs) then some 0
    else (indexOfSub t cs).map (· + 1)

/-- JS `indexOf(pattern, start)` (absolute index, `none` = JS `-1`). -/
def indexOfFrom (t s : List Char) (start : Nat) : Option Nat :=
  (indexOfSub t (s.drop start)).map (· + start)

/-- The part of `s` after the first occurrence of `ch`, if any. -/
def afterFirst (ch : Char) : List Char → Option (List Char)
  | [] => none
  | c :: cs => if c == ch then some cs else afterFirst ch cs

/-- JS `String.prototype.slice(a, b)` with its negative-index normalisation:
a negative index counts from the end, then both are clamped to `[0, length]`. -/
def jsSlice (cs : List Char) (a b : Int) : List Char :=
  let n : Int := cs.length
  let norm : Int → Nat := fun x => (if x < 0 then max (n + x) 0 else min x n).toNat
  (cs.take (norm b)).drop (norm a)

/-! ### Data model (`debugScanner.ts`, interfaces `DebugStatement` / `ScanResult`) -/

/-- The closed enumeration of debug-call kinds (`DebugStatement['type']`). -/
inductive DType where
  | var_dump | print_r | echo | die | exit | error_log | debug_backtrace
  | print | var_export | dump | dd | trigger_error | user_error | printf
  | xdebug_var_dump | xdebug_debug_zval | xdebug_break
deriving DecidableEq, Repr

/-- `DebugStatement['severity']`. -/
inductive Sev where
  | info | warning | error
deriving DecidableEq, Repr

/-- `DebugStatement`.  The `id` string `` `${filePath}:${lineNumber}:${column}` ``
is modelled as the triple it is built from (the code only ever compares ids
for equality). -/
structure Stmt where
  id : List Char × Nat × Int
  filePath : List Char
  relativePath : List Char
  lineNumber : Nat
  column : Int
  content : List Char
  context : List Char
  type : DType
  severity : Sev
deriving DecidableEq, Repr

/-- `ScanError` (the `message` of the thrown error; the code's message
interpolates the offending size, modelled by the payload). -/
inductive ScanErrKind where
  | fileTooLarge (size : Nat)
deriving DecidableEq, Repr

structure ScanError where
  filePath : List Char
  err : ScanErrKind
deriving DecidableEq, Repr

/-- `ScanResult`.  `scanTime` is the measured wall-clock duration; the model
takes it as an input where the code measures it. -/
structure ScanResult where
  statements : List Stmt
  scannedFiles : Nat
  totalStatements : Nat
  errors : List ScanError
  scanTime : Nat
deriving DecidableEq, Repr

/-! ### Pattern classification (`matchTypeFromText`, lines 84-103) -/

def tokVarDump : List Char := "var_dump".toList
def tokPrintR : List Char := "print_r".toList
def tokEcho : List Char := "echo".toList
def tokPrint : List Char := "print".toList
def tokVarExport : List Char := "var_export".toList
def tokPrintf : List Char := "printf".toList
def tokDie : List Char := "die".toList
def tokExit : List Char := "exit".toList
def tokErrorLog : List Char := "error_log".toList
def tokTriggerError : List Char := "trigger_error".toList
def tokUserError : List Char := "user_error".toList
def tokBacktrace : List Char := "debug_backtrace".toList
def tokDump : List Char := "dump".toList
def tokDD : List Char := "dd".toList
def tokXdVarDump : List Char := "xdebug_var_dump".toList
def tokXdZval : List Char := "xdebug_debug_zval".toList
def tokXdBreak : List Char := "xdebug_break".toList
def tokBlockStart : List Char := "/*".toList
def tokBlockEnd : List Char := "*/".toList
def tokLineComment : List Char := "//".toList
def tokHash : List Char := "#".toList

/-- Regex `^\s*tok\s*\(` on `t`. -/
def matchParenRule (tok t : List Char) : Bool :=
  let s := dropWS t
  startsWithSeq tok s && ((dropWS (s.drop tok.length)).head? == some '(')

/-- Regex `^\s*tok\s+` on `t` (token followed by at least one whitespace). -/
def matchWsRule (tok t : List Char) : Bool :=
  let s := dropWS t
  startsWithSeq tok s &&
    (match (s.drop tok.length).head? with
     | some c => isWS c
     | none => false)

/-- Regex `^\s*tok\b` on `t` (token ends at a word boundary). -/
def matchBoundaryRule (tok t : List Char) : Bool :=
  let s := dropWS t
  startsWithSeq tok s &&
    (match (s.drop tok.length).head? with
     | some c => !isWordChar c
     | none => true)

/-- `DebugScanner.matchTypeFromText`: the ordered anchored rule list applied
to the lowercased text.  Note the die/exit rule resolves to `exit` whenever
the whole text contains `exit` anywhere (`t.includes('exit')`). -/
def matchTypeFromText (text : List Char) : Option DType :=
  let t := text.map Char.toLower
  if matchParenRule tokDD t then some .dd
  else if matchParenRule tokVarDump t then some .var_dump
  else if matchParenRule tokPrintR t then some .print_r
  else if matchWsRule tokEcho t then some .echo
  else if matchWsRule tokPrint t then some .print
  else if matchParenRule tokVarExport t then some .var_export
  else if matchParenRule tokPrintf t then some .printf
  else if matchBoundaryRule tokDie t || matchBoundaryRule tokExit t then
    (if containsSeq tokExit t then some .exit else some .die)
  else if matchParenRule tokErrorLog t then some .error_log
  else if matchParenRule tokTriggerError t then some .trigger_error
  else if matchParenRule tokUserError t then some .user_error
  else if matchParenRule tokBacktrace t then some .debug_backtrace
  else if matchParenRule tokDump t then some .dump
  else if matchParenRule tokXdVarDump t then some .xdebug_var_dump
  else if matchParenRule tokXdZval t then some .xdebug_debug_zval
  else if matchBoundaryRule tokXdBreak t then some .xdebug_break
  else none

/-- `DebugScanner.getStatementType` (falls back to `var_dump`). -/
def getStatementType (content : List Char) : DType :=
  (matchTypeFromText content).getD .var_dump

/-- `DebugScanner.quickCheck` (lines 559-561). -/
def quickCheck (line : List Char) : Bool :=
  (matchTypeFromText line).isSome

/-- `DebugScanner.getStatementSeverity` (lines 563-568): case-insensitive
substring containment tests on the content. -/
def getStatementSeverity (content : List Char) : Sev :=
  let lower := content.map Char.toLower
  if containsSeq tokDie lower || containsSeq tokExit lower || containsSeq tokDD lower then .error
  else if containsSeq tokErrorLog lower || containsSeq tokTriggerError lower ||
      containsSeq tokUserError lower then .warning
  else .info

/-- The `tokenMap` of `scanFile`: every type maps to its own token text. -/
def tokenOfType : DType → List Char
  | .var_dump => tokVarDump
  | .print_r => tokPrintR
  | .echo => tokEcho
  | .print => tokPrint
  | .var_export => tokVarExport
  | .printf => tokPrintf
  | .die => tokDie
  | .exit => tokExit
  | .error_log => tokErrorLog
  | .trigger_error => tokTriggerError
  | .user_error => tokUserError
  | .debug_backtrace => tokBacktrace
  | .dump => tokDump
  | .dd => tokDD
  | .xdebug_var_dump => tokXdVarDump
  | .xdebug_debug_zval => tokXdZval
  | .xdebug_break => tokXdBreak

/-! ### Per-line sanitizer and carried state (`scanFile`, lines 321-415) -/

/-- The state carried from line to line: `inBlockComment` plus the combined
`inString`/`stringDelimiter` pair (the delimiter is `some q` exactly when
`inString` is true; the code maintains that invariant). -/
structure ScanSt where
  inBlockComment : Bool
  strState : Option Char
deriving DecidableEq, Repr

/-- The character loop of lines 372-414: strips string-literal content
(tracking backslash escapes) and stops at an inline `//` or `#` comment.
Returns the sanitized text and the exit string state. -/
def sanitizeGo : Option Char → Bool → List Char → List Char × Option Char
  | st, _, [] => ([], st)
  | some q, lastBS, ch :: rest =>
    if ch == '\\' then sanitizeGo (some q) (!lastBS) rest
    else if ch == q && !lastBS then sanitizeGo none false rest
    else sanitizeGo (some q) false rest
  | none, lastBS, ch :: rest =>
    if ch == '"' || ch == '\'' then sanitizeGo (some ch) false rest
    else if ch == '/' && rest.head? == some '/' then ([], none)
    else if ch == '#' then ([], none)
    else
      let r := sanitizeGo none lastBS rest
      (ch :: r.1, r.2)

/-- Lines 337-347: while in a block comment, skip the line (`none`) unless a
`*/` closes it, in which case scanning resumes after it. -/
def stripLeadBlock (bc : Bool) (line : List Char) : Option (List Char) × Bool :=
  if bc then
    match indexOfSub tokBlockEnd line with
    | none => (none, true)
    | some i => (some (line.drop (i + 2)), false)
  else (some line, false)

/-- Lines 349-353: a line whose trimmed text starts with `//` or `#` is
skipped entirely. -/
def isCommentLine (lts : List Char) : Bool :=
  startsWithSeq tokLineComment (trimWS lts) || startsWithSeq tokHash (trimWS lts)

/-- Lines 355-367: remove a `/* ... */` span within the line, or truncate at
an unclosed `/*` and enter block-comment mode. -/
def stripMidBlock (bc : Bool) (lts : List Char) : List Char × Bool :=
  match indexOfSub tokBlockStart lts with
  | some sb =>
    (match indexOfFrom tokBlockEnd lts (sb + 2) with
     | some eb => (lts.take sb ++ lts.drop (eb + 2), bc)
     | none => (lts.take sb, true))
  | none => (lts, bc)

/-! ### Segmentation and emission (`scanFile`, lines 423-512) -/

/-- A semicolon-terminated candidate segment of the sanitized line. -/
structure Seg where
  text : List Char
  startSan : Nat
  endSan : Nat
deriving DecidableEq, Repr

def segsGo : List Char → Nat → Nat → List Char → List Seg
  | [], _, _, _ => []
  | c :: cs, k, segStart, cur =>
    if c == ';' then
      (if (trimWS (cur ++ [';'])).length > 0 then [⟨cur ++ [';'], segStart, k⟩] else [])
        ++ segsGo cs (k + 1) (k + 1) []
    else segsGo cs (k + 1) segStart (cur ++ [c])

/-- Lines 436-447: split the sanitized line at every `;`; a trailing fragment
with no semicolon is dropped. -/
def segmentsOf (sanitized : List Char) : List Seg := segsGo sanitized 0 0 []

/-- `restSemiWs s`: regex fragment `\s*;\s*$`. -/
def restSemiWs (s : List Char) : Bool :=
  match dropWS s with
  | ';' :: r => r.all isWS
  | _ => false

/-- After `exit`/`die`: regex fragment `\s*(?:\([^)]*\))?\s*;\s*$`. -/
def exitTail (s : List Char) : Bool :=
  match dropWS s with
  | '(' :: r =>
    (match afterFirst ')' r with
     | some rest => restSemiWs rest
     | none => false)
  | _ => restSemiWs s

/-- `isExitOnlySegment` (lines 450-454): the lowercased, trimmed segment is
exactly `exit`/`die` with an optional parenthesized argument and a `;`. -/
def isExitOnlySegment (txt : List Char) : Bool :=
  let t := trimWS (txt.map Char.toLower)
  let s := dropWS t
  if startsWithSeq tokExit s then exitTail (s.drop tokExit.length)
  else if startsWithSeq tokDie s then exitTail (s.drop tokDie.length)
  else false

/-- The `findEnd` helper defined inline at lines 472-478 (and again at
501-506): scan forward from `i0` (clamped to 0) for the first `;` outside a
quoted string; result is the index one past it, or the text length. -/
def findEndGo (len : Nat) : List Char → Nat → Option Char → Bool → Nat
  | [], _, _, _ => len
  | ch :: rest, i, some q, esc =>
    if ch == '\\' then findEndGo len rest (i + 1) (some q) (!esc)
    else if ch == q && !esc then findEndGo len rest (i + 1) none false
    else findEndGo len rest (i + 1) (some q) false
  | ch :: rest, i, none, _ =>
    if ch == '"' || ch == '\'' then findEndGo len rest (i + 1) (some ch) false
    else if ch == ';' then i + 1
    else findEndGo len rest (i + 1) none false

def findEnd (text : List Char) (i0 : Int) : Nat :=
  findEndGo text.length (text.drop i0.toNat) i0.toNat none false

/-- Word-boundary test for regex `\b(?:exit|die)\b` at the head of `s`,
`prev` being the character before `s` (if any). -/
def boundaryAt (prev : Option Char) (tok s : List Char) : Bool :=
  (match prev with
   | none => true
   | some c => !isWordChar c) &&
  startsWithSeq tok s &&
  (match (s.drop tok.length).head? with
   | some c => !isWordChar c
   | none => true)

def searchExitDieGo : Option Char → List Char → Nat → Option Nat
  | _, [], _ => none
  | prev, c :: cs, i =>
    if boundaryAt prev tokExit (c :: cs) || boundaryAt prev tokDie (c :: cs) then some i
    else searchExitDieGo (some c) cs (i + 1)

/-- JS `after.search(/\b(?:exit|die)\b/)` (case-sensitive; `none` = `-1`). -/
def searchExitDie (s : List Char) : Option Nat := searchExitDieGo none s 0

/-- `createDebugStatement` (lines 526-547). -/
def createDebugStatement (fp rp : List Char) (ln : Nat) (col : Int)
    (content context : List Char) (ty : DType) (sv : Sev) : Stmt :=
  { id := (fp, ln, col)
    filePath := fp
    relativePath := rp
    lineNumber := ln
    column := col
    content := trimWS content
    context := trimWS context
    type := ty
    severity := sv }

/-- The token-location step shared by both emission paths: JS
`indexOf(token, approx)` falling back to `indexOf(token)`, remaining `-1`
when the token does not occur contiguously in the original line at all. -/
def locateToken (token orig : List Char) (approx : Nat) : Int :=
  match indexOfFrom token orig approx with
  | some i => (i : Int)
  | none =>
    match indexOfSub token orig with
    | some i => (i : Int)
    | none => -1

/-- The merged-statement emission of lines 461-488.  `mapIdx` built at lines
423-434 is the identity on the already-sanitized text, so the approximate
anchor is the segment's sanitized start offset. -/
def mergedStmt (fp rp : List Char) (ln : Nat) (orig : List Char) (seg : Seg) : Stmt :=
  let ty := getStatementType seg.text
  let token := tokenOfType ty
  let startTok : Int := locateToken token orig seg.startSan
  let end1 := findEnd orig startTok
  let after := orig.drop end1
  let finalEnd : Nat :=
    match searchExitDie after with
    | some k => findEnd orig ((end1 + k : Nat) : Int)
    | none => end1
  let combined := jsSlice orig startTok (finalEnd : Int)
  createDebugStatement fp rp ln startTok combined orig ty (getStatementSeverity combined)

/-- The single-segment emission of lines 491-511 (emits nothing when the
segment does not classify as a debug type). -/
def singleStmt (fp rp : List Char) (ln : Nat) (orig : List Char) (seg : Seg) : List Stmt :=
  let segType := getStatementType seg.text
  let tok := tokenOfType segType
  let startIdx : Int := locateToken tok orig seg.startSan
  let endIdx := findEnd orig startIdx
  let segOrig := jsSlice orig startIdx (endIdx : Int)
  if (matchTypeFromText seg.text).isSome then
    [createDebugStatement fp rp ln startIdx segOrig orig segType (getStatementSeverity segOrig)]
  else []

/-- The segment loop of lines 456-512: a debug segment immediately followed
by a pure `exit`/`die` segment is merged (consuming the next segment);
otherwise each segment is emitted on its own when it classifies. -/
def processSegs (fp rp : List Char) (ln : Nat) (orig : List Char) : List Seg → List Stmt
  | [] => []
  | seg :: next :: rest =>
    if (matchTypeFromText seg.text).isSome && isExitOnlySegment next.text then
      mergedStmt fp rp ln orig seg :: processSegs fp rp ln orig rest
    else
      singleStmt fp rp ln orig seg ++ processSegs fp rp ln orig (next :: rest)
  | [seg] => singleStmt fp rp ln orig seg

/-- One iteration of the line loop of `scanFile` (lines 331-513): block
comment carry-over, line-comment skip, partial block comment, sanitizer,
quick check, segmentation, emission.  Returns the statements of the line and
the state carried to the next line. -/
def processLine (fp rp : List Char) (ln : Nat) (st : ScanSt) (orig : List Char) :
    List Stmt × ScanSt :=
  match stripLeadBlock st.inBlockComment orig with
  | (none, _) => ([], st)
  | (some lts0, bc1) =>
    if isCommentLine lts0 then ([], ⟨bc1, st.strState⟩)
    else
      let p := stripMidBlock bc1 lts0
      let q := sanitizeGo st.strState false p.1
      let st' : ScanSt := ⟨p.2, q.2⟩
      if quickCheck q.1 then (processSegs fp rp ln orig (segmentsOf q.1), st')
      else ([], st')

/-- The sanitized text a line contributes to the quick check and to
segmentation (the composition of the comment stages and the sanitizer used
inside `processLine`; `[]` for a skipped line). -/
def sanitizedLineOf (st : ScanSt) (orig : List Char) : List Char :=
  match stripLeadBlock st.inBlockComment orig with
  | (none, _) => []
  | (some lts0, bc1) =>
    if isCommentLine lts0 then []
    else (sanitizeGo st.strState false (stripMidBlock bc1 lts0).1).1

def scanLinesGo (fp rp : List Char) : Nat → ScanSt → List (List Char) → List Stmt
  | _, _, [] => []
  | ln, st, l :: rest =>
    let r := processLine fp rp ln st l
    r.1 ++ scanLinesGo fp rp (ln + 1) r.2 rest

/-- The whole per-file scan of contents already read and split into lines
(`scanFile` lines 321-513), starting from the initial carried state. -/
def scanContent (fp rp : List Char) (lines : List (List Char)) : List Stmt :=
  scanLinesGo fp rp 1 ⟨false, none⟩ lines

/-! ### Sorting of scan results (`statements.sort(...)`, lines 159 and 218) -/

/-- The comparator `a.filePath.localeCompare(b.filePath) || a.lineNumber -
b.lineNumber` as a relation: path lexicographically first, then ascending
line number (string comparison modelled as lexicographic order on the
character sequence). -/
def stmtLe (a b : Stmt) : Prop :=
  a.filePath < b.filePath ∨ (a.filePath = b.filePath ∧ a.lineNumber ≤ b.lineNumber)

instance : DecidableRel stmtLe := fun a b =>
  inferInstanceAs (Decidable (a.filePath < b.filePath ∨
    (a.filePath = b.filePath ∧ a.lineNumber ≤ b.lineNumber)))

instance : IsTotal Stmt stmtLe :=
  ⟨fun a b => by
    rcases lt_trichotomy a.filePath b.filePath with h | h | h
    · exact Or.inl (Or.inl h)
    · by_cases hl : a.lineNumber ≤ b.lineNumber
      · exact Or.inl (Or.inr ⟨h, hl⟩)
      · exact Or.inr (Or.inr ⟨h.symm, le_of_not_le hl⟩)
    · exact Or.inr (Or.inl h)⟩

instance : IsTrans Stmt stmtLe :=
  ⟨fun a b c hab hbc => by
    rcases hab with h1 | ⟨e1, l1⟩ <;> rcases hbc with h2 | ⟨e2, l2⟩
    · exact Or.inl (h1.trans h2)
    · exact Or.inl (e2 ▸ h1)
    · exact Or.inl (e1 ▸ h2)
    · exact Or.inr ⟨e1.trans e2, l1.trans l2⟩⟩

/-- JS `Array.prototype.sort` is a stable comparison sort; it is modelled by
stable insertion sort with the comparator relation. -/
def sortStmts (l : List Stmt) : List Stmt := List.insertionSort stmtLe l

/-! ### Batched scanning (`scanWorkspace` lines 105-174, `scanFiles` 176-231) -/

/-- A file as seen by the scanner: its path, its `stat` size, and its content
split into lines.  (`relativePath` is derived with `path.relative`; the model
reuses the path itself, which no claim depends on.) -/
structure FileEntry where
  path : List Char
  size : Nat
  lines : List (List Char)
deriving DecidableEq, Repr

/-- `scanFile`'s size gate (lines 301-305) followed by the content scan.
The mtime/size cache (lines 308-315, 515-521) is not modelled: on a hit it
returns the identical previously computed list. -/
def scanFileM (maxFileSize : Nat) (f : FileEntry) : Except ScanErrKind (List Stmt) :=
  if f.size > maxFileSize then .error (.fileTooLarge f.size)
  else .ok (scanContent f.path f.path f.lines)

def tokPhpExt : List Char := ".php".toList

def endsWithSeq (suf s : List Char) : Bool := startsWithSeq suf.reverse s.reverse

/-- The target filter of `scanFiles` (line 195): lower-cased `.php` suffix
and not excluded (the compiled exclude matcher is passed in as a predicate). -/
def phpTarget (excl : List Char → Bool) (p : List Char) : Bool :=
  endsWithSeq tokPhpExt (p.map Char.toLower) && !(excl p)

/-- The per-batch loop of `scanFiles` (lines 197-214): each file is scanned
under a try/catch; an error is recorded and the file contributes `[]`.
Batches of 50 concatenate in file order, so the loop is modelled as a single
pass.  Returns (statements, errors, scannedFiles). -/
def scanFilesGo (maxFileSize : Nat) : List FileEntry → List Stmt × List ScanError × Nat
  | [] => ([], [], 0)
  | f :: rest =>
    let r := scanFilesGo maxFileSize rest
    match scanFileM maxFileSize f with
    | .ok sts => (sts ++ r.1, r.2.1, r.2.2 + 1)
    | .error e => (r.1, ⟨f.path, e⟩ :: r.2.1, r.2.2 + 1)

/-- The empty zero-duration result returned by the re-entrancy guard
(lines 107-115 and 178-186). -/
def emptyScanResult : ScanResult := ⟨[], 0, 0, [], 0⟩

/-- `scanFiles` (lines 176-231).  `scanInProgress` is the engine's guard
flag at entry; `elapsed` is the measured wall time of the completed scan. -/
def scanFilesM (scanInProgress : Bool) (maxFileSize : Nat) (excl : List Char → Bool)
    (elapsed : Nat) (files : List FileEntry) : ScanResult :=
  if scanInProgress then emptyScanResult
  else
    let targets := files.filter (fun f => phpTarget excl f.path)
    let r := scanFilesGo maxFileSize targets
    let sorted := sortStmts r.1
    ⟨sorted, r.2.2, sorted.length, r.2.1, elapsed⟩

/-- The per-batch loop of `scanWorkspace` (lines 139-155): `scanFile` is
called with NO try/catch, so the first failing file rejects the whole
`Promise.all` and the error propagates out of `scanWorkspace`. -/
def scanWorkspaceGo (maxFileSize : Nat) : List FileEntry → Except ScanErrKind (List Stmt × Nat)
  | [] => .ok ([], 0)
  | f :: rest =>
    match scanFileM maxFileSize f with
    | .error e => .error e
    | .ok sts =>
      match scanWorkspaceGo maxFileSize rest with
      | .error e => .error e
      | .ok r => .ok (sts ++ r.1, r.2 + 1)

/-- `scanWorkspace` (lines 105-174) on the file list produced by
`collectFiles` (which already applied the extension/exclude filters during
the directory walk).  Its local `errors` array is declared but never
populated, so a successful result always carries an empty error list. -/
def scanWorkspaceM (scanInProgress : Bool) (maxFileSize : Nat) (elapsed : Nat)
    (files : List FileEntry) : Except ScanErrKind ScanResult :=
  if scanInProgress then .ok emptyScanResult
  else
    match scanWorkspaceGo maxFileSize files with
    | .error e => .error e
    | .ok r =>
      let sorted := sortStmts r.1
      .ok ⟨sorted, r.2, sorted.length, [], elapsed⟩

/-! ### Brace balance and insertion planning (`extension.ts`) -/

def obrace : Char := Char.ofNat 123
def cbrace : Char := Char.ofNat 125

inductive BraceCheck where
  | ok
  /-- `ok: false` citing the 1-based line of the first unmatched closing brace. -/
  | closeAt (line : Nat)
  /-- `ok: false` with the net-nonzero-balance message. -/
  | unbalanced
deriving DecidableEq, Repr

/-- The inner character loop of `checkBraceBalance` on one line: `none` when
the running balance dips below zero within the line. -/
def braceLine (b : Int) : List Char → Option Int
  | [] => some b
  | c :: cs =>
    let b' := if c == obrace then b + 1 else if c == cbrace then b - 1 else b
    if b' < 0 then none else braceLine b' cs

def checkLinesGo (b : Int) (i : Nat) : List (List Char) → BraceCheck
  | [] => if b != 0 then .unbalanced else .ok
  | l :: rest =>
    match braceLine b l with
    | none => .closeAt (i + 1)
    | some b' => checkLinesGo b' (i + 1) rest

/-- `checkBraceBalance` (`extension.ts` lines 91-108). -/
def checkBraceBalance (doc : List (List Char)) : BraceCheck := checkLinesGo 0 0 doc

/-- The brace contribution of one character (`+1` for an opening brace,
`-1` for a closing brace, `0` otherwise). -/
def braceCharDelta (c : Char) : Int :=
  if c == obrace then 1 else if c == cbrace then -1 else 0

/-- The net brace contribution of a character sequence. -/
def braceDelta : List Char → Int
  | [] => 0
  | c :: cs => braceCharDelta c + braceDelta cs

/-- "A closing brace appears without a matching open" within 0-based line
`j` of the document, at its `m`-character prefix: the running balance of
everything up to that point is negative. -/
def docBadPrefix (doc : List (List Char)) (j m : Nat) : Prop :=
  braceDelta ((doc.take j).flatten ++ (doc.getD j []).take m) < 0

structure EditorOpts where
  insertSpaces : Bool
  /-- `editor.options.tabSize` when it is a number. -/
  tabSize : Option Nat
deriving DecidableEq, Repr

def lineAtD (doc : List (List Char)) (i : Nat) : List Char := doc.getD i []

/-- `getIndent` (lines 31-34): the leading-whitespace match. -/
def getIndent (t : List Char) : List Char := t.takeWhile isWS

/-- `getIndentIncrement` (lines 67-78). -/
def getIndentIncrement (opts : EditorOpts) (baseIndent : List Char) : List Char :=
  let size := opts.tabSize.getD 4
  if baseIndent.contains '\t' then ['\t']
  else if opts.insertSpaces then List.replicate size ' '
  else ['\t']

def prevContentIndentGo : List (List Char) → List Char
  | [] => []
  | t :: rest =>
    let trimmed := trimWS t
    if trimmed.length == 0 then prevContentIndentGo rest
    else if trimmed == [cbrace] || trimmed == [obrace] then prevContentIndentGo rest
    else getIndent t

/-- `getPreviousContentIndent` (lines 80-89): walk upward from `fromLine` to
the nearest line with non-brace content. -/
def getPreviousContentIndent (doc : List (List Char)) (fromLine : Nat) : List Char :=
  prevContentIndentGo ((doc.take (fromLine + 1)).reverse)

/-- The bracket/quote state of `findStatementEndPosition` (lines 36-65). -/
structure FindSt where
  str : Option Char
  esc : Bool
  p : Nat
  b : Nat
  c : Nat
deriving DecidableEq, Repr

def stmtEndInLine (st : FindSt) : List Char → Nat → Option Nat × FindSt
  | [], _ => (none, st)
  | ch :: rest, i =>
    match st.str with
    | some q =>
      if ch == '\\' then stmtEndInLine { st with esc := !st.esc } rest (i + 1)
      else if ch == q && !st.esc then
        stmtEndInLine { st with str := none, esc := false } rest (i + 1)
      else stmtEndInLine { st with esc := false } rest (i + 1)
    | none =>
      if ch == '"' || ch == '\'' then
        stmtEndInLine { st with str := some ch, esc := false } rest (i + 1)
      else if ch == '(' then stmtEndInLine { st with p := st.p + 1 } rest (i + 1)
      else if ch == ')' then stmtEndInLine { st with p := st.p - 1 } rest (i + 1)
      else if ch == '[' then stmtEndInLine { st with b := st.b + 1 } rest (i + 1)
      else if ch == ']' then stmtEndInLine { st with b := st.b - 1 } rest (i + 1)
      else if ch == obrace then stmtEndInLine { st with c := st.c + 1 } rest (i + 1)
      else if ch == cbrace then stmtEndInLine { st with c := st.c - 1 } rest (i + 1)
      else if ch == ';' && st.p == 0 && st.b == 0 && st.c == 0 then (some (i + 1), st)
      else stmtEndInLine st rest (i + 1)

def stmtEndLines : List (List Char) → Nat → Nat → FindSt → Option (Nat × Nat)
  | [], _, _, _ => none
  | t :: rest, li, ci, st =>
    match stmtEndInLine st (t.drop ci) ci with
    | (some j, _) => some (li, j)
    | (none, st') => stmtEndLines rest (li + 1) 0 st'

/-- `findStatementEndPosition` (lines 36-65): the first `;` at zero
paren/bracket/brace depth outside strings, scanning forward over lines. -/
def findStatementEndPosition (doc : List (List Char)) (fromLine fromChar : Nat) : Nat × Nat :=
  match stmtEndLines (doc.drop fromLine) fromLine fromChar ⟨none, false, 0, 0, 0⟩ with
  | some pos => pos
  | none => (min (fromLine + 1) doc.length, 0)

/-- The `while` loop at lines 357-359: first line at/after `start` whose
trimmed text is non-empty (`doc.length` when none). -/
def nneGo : List (List Char) → Nat → Nat
  | [], i => i
  | t :: rest, i => if (trimWS t).length == 0 then nneGo rest (i + 1) else i

def nextNonEmptyIdx (doc : List (List Char)) (selLine : Nat) : Nat :=
  nneGo (doc.drop (min (selLine + 1) (doc.length - 1))) (min (selLine + 1) (doc.length - 1))

/-- `InsertionPlan`: target position, indentation, and whether a leading
newline must precede the inserted text (the `closingBraceCase`). -/
structure InsertionPlan where
  line : Nat
  chr : Nat
  indent : List Char
  leadingNewline : Bool
deriving DecidableEq, Repr

/-- The insertion-position policy of the `dumpVariable` handler (lines
334-382), run only after the brace check has passed. -/
def computePlan (opts : EditorOpts) (doc : List (List Char)) (selLine selChar : Nat) :
    InsertionPlan :=
  let lineCount := doc.length
  let nextLineIndex := min (selLine + 1) (lineCount - 1)
  let nextLineText := lineAtD doc nextLineIndex
  if trimWS nextLineText == [obrace] then
    let baseIndent := getIndent nextLineText
    InsertionPlan.mk (min (nextLineIndex + 1) lineCount) 0
      (baseIndent ++ getIndentIncrement opts baseIndent) false
  else if trimWS nextLineText == [cbrace] then
    let prevContentIndent := getPreviousContentIndent doc selLine
    let currentIndent := getIndent (lineAtD doc selLine)
    InsertionPlan.mk nextLineIndex 0
      (if prevContentIndent.isEmpty then currentIndent else prevContentIndent) false
  else
    let currLineText := lineAtD doc selLine
    let nextNonEmpty := nextNonEmptyIdx doc selLine
    let nextNonEmptyTrim :=
      if nextNonEmpty < lineCount then trimWS (lineAtD doc nextNonEmpty) else []
    let fallback :=
      let endPos := findStatementEndPosition doc selLine selChar
      let prevIndent := getPreviousContentIndent doc endPos.1
      InsertionPlan.mk (endPos.1 + 1) 0
        (if prevIndent.isEmpty then getIndent (lineAtD doc endPos.1) else prevIndent) false
    match indexOfSub [obrace] currLineText with
    | some openIdx =>
      let afterOpen := trimWS (currLineText.drop (openIdx + 1))
      if startsWithSeq [cbrace] afterOpen then
        let baseIndent := getIndent currLineText
        let closeIdx :=
          match indexOfFrom [cbrace] currLineText (openIdx + 1) with
          | some i => i
          | none => 0
        InsertionPlan.mk selLine closeIdx (baseIndent ++ getIndentIncrement opts baseIndent) true
      else if startsWithSeq [cbrace] nextNonEmptyTrim then
        let baseIndent := getIndent (lineAtD doc nextNonEmpty)
        InsertionPlan.mk nextNonEmpty 0 (baseIndent ++ getIndentIncrement opts baseIndent) false
      else fallback
    | none => fallback

/-- The handler's resolution pipeline (lines 327-387): the whole-document
brace-balance check runs first, and on failure the handler returns with the
error message before any plan is computed or any edit performed. -/
def resolveInsertion (opts : EditorOpts) (doc : List (List Char)) (selLine selChar : Nat) :
    Except BraceCheck InsertionPlan :=
  match checkBraceBalance doc with
  | .ok => .ok (computePlan opts doc selLine selChar)
  | e => .error e

/-! ### Clearing and bookmark protection (`debugManagerView.ts`) -/

/-- The provider state relevant to clearing: the persisted bookmark id set
and the files the editor would modify (path ↦ lines). -/
structure ProviderSt where
  bookmarks : List (List Char × Nat × Int)
  fsys : List (List Char × List (List Char))
deriving DecidableEq, Repr

def isBookmarkedIn (st : ProviderSt) (id : List Char × Nat × Int) : Bool :=
  st.bookmarks.contains id

def fsysLookup : List (List Char × List (List Char)) → List Char → Option (List (List Char))
  | [], _ => none
  | e :: rest, p => if e.1 == p then some e.2 else fsysLookup rest p

def fsysSet : List (List Char × List (List Char)) → List Char → List (List Char) →
    List (List Char × List (List Char))
  | [], _, _ => []
  | e :: rest, p, v => if e.1 == p then (e.1, v) :: rest else e :: fsysSet rest p v

/-- `DebugDataProvider.clearStatement` (lines 868-895): a bookmarked
statement is refused before any edit; otherwise the statement's whole line
(with its line break) is deleted and the (necessarily absent) bookmark id is
erased.  An unopenable file or an out-of-range line throws inside the `try`
and yields `false` with no change. -/
def clearStatement (st : ProviderSt) (s : Stmt) : Bool × ProviderSt :=
  if isBookmarkedIn st s.id then (false, st)
  else
    match fsysLookup st.fsys s.filePath with
    | none => (false, st)
    | some lines =>
      if s.lineNumber - 1 < lines.length then
        (true,
          { bookmarks := st.bookmarks.erase s.id
            fsys := fsysSet st.fsys s.filePath (lines.eraseIdx (s.lineNumber - 1)) })
      else (false, st)

/-- The descending (line, column) processing order of lines 902-907. -/
def stmtDescLe (a b : Stmt) : Prop :=
  b.lineNumber < a.lineNumber ∨ (a.lineNumber = b.lineNumber ∧ b.column ≤ a.column)

instance : DecidableRel stmtDescLe := fun a b =>
  inferInstanceAs (Decidable (b.lineNumber < a.lineNumber ∨
    (a.lineNumber = b.lineNumber ∧ b.column ≤ a.column)))

def clearListGo (st : ProviderSt) : List Stmt → Nat × ProviderSt
  | [] => (0, st)
  | s :: rest =>
    let r := clearStatement st s
    let r2 := clearListGo r.2 rest
    ((if r.1 then 1 else 0) + r2.1, r2.2)

/-- `DebugDataProvider.clearFileStatements` (lines 897-924): the file's
statements with bookmarked ones filtered out, processed in descending
line/column order, counting successful clears. -/
def clearFileStatements (st : ProviderSt) (allStmts : List Stmt) (fp : List Char) :
    Nat × ProviderSt :=
  let stmts := (allStmts.filter (fun s => s.filePath == fp)).filter
    (fun s => !(isBookmarkedIn st s.id))
  clearListGo st (List.insertionSort stmtDescLe stmts)

def addToGroup : List (List Char × List Stmt) → List Char → Stmt →
    List (List Char × List Stmt)
  | [], p, s => [(p, [s])]
  | e :: rest, p, s =>
    if e.1 == p then (e.1, e.2 ++ [s]) :: rest else e :: addToGroup rest p s

/-- `DebugDataProvider.clearAllStatements` (lines 926-958): bookmarked
statements are skipped up front, the rest are grouped by file in first-seen
order and cleared per file in descending line/column order. -/
def clearAllStatements (st : ProviderSt) (allStmts : List Stmt) : Nat × ProviderSt :=
  let nonBm := allStmts.filter (fun s => !(isBookmarkedIn st s.id))
  let groups := nonBm.foldl (fun acc s => addToGroup acc s.filePath s) []
  groups.foldl
    (fun (acc : Nat × ProviderSt) g =>
      let r := clearListGo acc.2 (List.insertionSort stmtDescLe g.2)
      (acc.1 + r.1, r.2))
    (0, st)

/-! ## Helper lemmas -/

theorem sanitizeGo_inString (q : Char) (l : List Char) (h : q ∉ l) :
    ∀ bs, sanitizeGo (some q) bs l = ([], some q) := by
  induction l with
  | nil => intro bs; rfl
  | cons c cs ih =>
    intro bs
    have hc : (c == q) = false := by
      refine beq_eq_false_iff_ne.mpr (fun e => h ?_)
      simp [e]
    have htail : q ∉ cs := fun hm => h (List.mem_cons_of_mem _ hm)
    by_cases hb : (c == '\\') = true
    · simp only [sanitizeGo, hb, if_true]
      exact ih htail _
    · simp only [Bool.not_eq_true] at hb
      simp only [sanitizeGo, hb, hc, Bool.false_and, Bool.false_eq_true, if_false]
      exact ih htail _

theorem stripLeadBlock_sub {bc : Bool} {line lts : List Char} {b2 : Bool}
    (h : stripLeadBlock bc line = (some lts, b2)) {a : Char} (ha : a ∈ lts) : a ∈ line := by
  unfold stripLeadBlock at h
  split at h
  · split at h
    · simp at h
    · simp only [Prod.mk.injEq, Option.some.injEq] at h
      exact List.mem_of_mem_drop (h.1 ▸ ha)
  · simp only [Prod.mk.injEq, Option.some.injEq] at h
    exact h.1 ▸ ha

theorem stripMidBlock_sub {bc : Bool} {lts : List Char} {a : Char}
    (ha : a ∈ (stripMidBlock bc lts).1) : a ∈ lts := by
  unfold stripMidBlock at ha
  split at ha
  · split at ha
    · rcases List.mem_append.mp ha with hh | hh
      · exact List.mem_of_mem_take hh
      · exact List.mem_of_mem_drop hh
    · exact List.mem_of_mem_take ha
  · exact ha

theorem quickCheck_nil : quickCheck ([] : List Char) = false := by decide

/-! ## C1 -/

/-- C1: a debug call inside a comment or a string literal produces no
DebugStatement.  Universally: a line whose trimmed text starts with `//` or
`#` yields no statements and leaves the state unchanged, and a line wholly
inside a block comment (no `*/` on it) yields no statements and leaves the
state unchanged; concretely, `// var_dump($x);` on its own line,
`$s = "var_dump($a)";`, and a block comment spanning lines 2-5 containing
`die();` all yield zero statements. -/
theorem C1_comment_string_exclusion :
    (∀ (fp rp : List Char) (ln : Nat) (st : ScanSt) (line : List Char),
       st.inBlockComment = false → isCommentLine line = true →
       processLine fp rp ln st line = ([], st)) ∧
    (∀ (fp rp : List Char) (ln : Nat) (st : ScanSt) (line : List Char),
       st.inBlockComment = true → indexOfSub tokBlockEnd line = none →
       processLine fp rp ln st line = ([], st)) ∧
    scanContent ("a.php".toList) ("a.php".toList) [("// var_dump($x);".toList)] = [] ∧
    scanContent ("a.php".toList) ("a.php".toList) [("$s = \"var_dump($a)\";".toList)] = [] ∧
    scanContent ("a.php".toList) ("a.php".toList)
      [("$a = 1;".toList), ("/* start".toList), ("die();".toList), ("die();".toList),
       ("end */".toList)] = [] := by
  refine ⟨?_, ?_, by decide, by decide, by decide⟩
  · intro fp rp ln st line hbc hcl
    obtain ⟨b, s⟩ := st
    simp only at hbc
    subst hbc
    simp only [processLine, stripLeadBlock, if_false, Bool.false_eq_true, hcl, if_true]
  · intro fp rp ln st line hbc hidx
    obtain ⟨b, s⟩ := st
    simp only at hbc
    subst hbc
    simp only [processLine, stripLeadBlock, if_true, hidx]

theorem C1_witness :
    processLine [] [] 1 ⟨false, none⟩ ("// var_dump($x);".toList) = ([], ⟨false, none⟩) ∧
    processLine [] [] 7 ⟨true, none⟩ ("die();".toList) = ([], ⟨true, none⟩) :=
  ⟨C1_comment_string_exclusion.1 [] [] 1 ⟨false, none⟩ _ rfl (by decide),
   C1_comment_string_exclusion.2.1 [] [] 7 ⟨true, none⟩ _ rfl (by decide)⟩

/-! ## C9 -/

/-- C9: the sanitizer's in-string state is carried across lines.  If the
state entering a line carries an open string with delimiter `q` and the
line contains no `q`, the line produces no statements and the state still
carries the open string; concretely, a `"`-string opened on line 1 and
closed on line 3 suppresses the `var_dump($x);` on line 2. -/
theorem C9_instring_carryover :
    (∀ (fp rp : List Char) (ln : Nat) (st : ScanSt) (q : Char) (line : List Char),
       st.strState = some q → q ∉ line →
       (processLine fp rp ln st line).1 = [] ∧
       (processLine fp rp ln st line).2.strState = some q) ∧
    scanContent ("a.php".toList) ("a.php".toList)
      [("$s = \"ab".toList), ("var_dump($x);".toList), ("c\";".toList)] = [] := by
  refine ⟨?_, by decide⟩
  intro fp rp ln st q line hq hmem
  unfold processLine
  cases hsl : stripLeadBlock st.inBlockComment line with
  | mk o b2 =>
    cases o with
    | none => simp [hq]
    | some lts0 =>
      have hm0 : q ∉ lts0 := fun hm => hmem (stripLeadBlock_sub hsl hm)
      by_cases hcl : isCommentLine lts0 = true
      · simp [hcl, hq]
      · simp only [Bool.not_eq_true] at hcl
        have hm1 : q ∉ (stripMidBlock b2 lts0).1 := fun hm => hm0 (stripMidBlock_sub hm)
        simp only [hcl, Bool.false_eq_true, if_false, hq,
          sanitizeGo_inString q _ hm1 false, quickCheck_nil]
        exact ⟨trivial, trivial⟩

theorem C9_witness :
    (processLine [] [] 2 ⟨false, some '"'⟩ ("var_dump($x);".toList)).1 = [] ∧
    (processLine [] [] 2 ⟨false, some '"'⟩ ("var_dump($x);".toList)).2.strState = some '"' :=
  C9_instring_carryover.1 [] [] 2 ⟨false, some '"'⟩ '"' _ rfl (by decide)

/-! ## C7 -/

/-- C7: while a scan is in progress, `scanWorkspace` and `scanFiles` return
immediately with the empty result: no statements, zero counts, no errors and
a zero `scanTime`, for every input. -/
theorem C7_reentrancy_guard :
    (∀ (maxSize : Nat) (excl : List Char → Bool) (elapsed : Nat) (files : List FileEntry),
       scanFilesM true maxSize excl elapsed files = emptyScanResult) ∧
    (∀ (maxSize elapsed : Nat) (files : List FileEntry),
       scanWorkspaceM true maxSize elapsed files = .ok emptyScanResult) ∧
    emptyScanResult.statements = [] ∧ emptyScanResult.scannedFiles = 0 ∧
    emptyScanResult.totalStatements = 0 ∧ emptyScanResult.errors = [] ∧
    emptyScanResult.scanTime = 0 :=
  ⟨fun _ _ _ _ => rfl, fun _ _ _ => rfl, rfl, rfl, rfl, rfl, rfl⟩

/-! ## C4 -/

/-- C4 counterexample: for the line `ec"x"ho $y; exit;` the sanitized text is
`echo $y; exit;`, whose segment 0 classifies as a debug type (echo) and
whose segment 1 is a pure `exit;` — the claim's hypothesis — yet the single
merged statement has severity `info` (not `error`) and content `;` (not the
span from the token to the end of segment 1): the token re-location on the
original line fails (the string literal splits `echo`), `indexOf` yields
`-1`, and the JS `slice(-1, …)` anchors at the last character. -/
theorem C4_counterexample :
    ((segmentsOf (sanitizeGo none false ("ec\"x\"ho $y; exit;".toList)).1).map
      (fun g => ((matchTypeFromText g.text).isSome, isExitOnlySegment g.text)) =
      [(true, false), (true, true)]) ∧
    (scanContent ("a.php".toList) ("a.php".toList) [("ec\"x\"ho $y; exit;".toList)]).map
      (fun s => (s.type, s.severity, s.content, s.column)) =
      [(.echo, .info, (";".toList), (-1 : Int))] :=
  ⟨by decide, by decide⟩

/-- C4 (amended): a debug segment immediately followed by a pure
`exit`/`die` segment is emitted as exactly one merged statement whose type
is the debug segment's type, the `exit`/`die` segment being consumed and not
separately emitted; severity and content are recomputed from the span
re-located in the original, un-sanitized line, which yields severity
`error` and the full `token …; exit…;` span whenever the token is found
there — in particular `dd($x); exit;` yields exactly one statement of type
`dd`, severity `error`, content `dd($x); exit;`. -/
theorem C4_merge_amended :
    (∀ (fp rp : List Char) (ln : Nat) (orig : List Char) (seg next : Seg) (rest : List Seg),
       (matchTypeFromText seg.text).isSome = true → isExitOnlySegment next.text = true →
       processSegs fp rp ln orig (seg :: next :: rest) =
         mergedStmt fp rp ln orig seg :: processSegs fp rp ln orig rest) ∧
    (∀ (fp rp : List Char) (ln : Nat) (orig : List Char) (seg : Seg),
       (mergedStmt fp rp ln orig seg).type = getStatementType seg.text) ∧
    scanContent ("a.php".toList) ("a.php".toList) [("dd($x); exit;".toList)] =
      [createDebugStatement ("a.php".toList) ("a.php".toList) 1 0 ("dd($x); exit;".toList)
        ("dd($x); exit;".toList) .dd .error] := by
  refine ⟨?_, ?_, by decide⟩
  · intro fp rp ln orig seg next rest h1 h2
    simp only [processSegs, h1, h2, Bool.and_self, if_true]
  · intro fp rp ln orig seg
    rfl

theorem C4_witness :
    processSegs [] [] 1 ("dd($x); exit;".toList)
        [⟨("dd($x);".toList), 0, 6⟩, ⟨(" exit;".toList), 7, 12⟩] =
      mergedStmt [] [] 1 ("dd($x); exit;".toList) ⟨("dd($x);".toList), 0, 6⟩ ::
        processSegs [] [] 1 ("dd($x); exit;".toList) [] :=
  C4_merge_amended.1 [] [] 1 _ _ _ [] (by decide) (by decide)

/-! ## C5 -/

/-- C5 counterexample: `var_dump($add);` is a plain `var_dump` statement
whose content contains no termination or logging call, yet its severity is
`error`, because `getStatementSeverity` tests substring containment and
`$add` contains `dd`.  The claim predicts severity `info` here. -/
theorem C5_counterexample :
    (scanContent ("a.php".toList) ("a.php".toList) [("var_dump($add);".toList)]).map
      (fun s => (s.type, s.severity, s.content)) =
      [(.var_dump, .error, ("var_dump($add);".toList))] := by decide

/-! ## C6 -/

/-- C6 counterexample: the line `$x = 1; var_dump($x);` contains a
semicolon-terminated debug call (its second segment classifies as
`var_dump`), but the quick pre-filter — the anchored `matchTypeFromText` on
the whole sanitized line — rejects the line, so the call is not reported:
the scan yields zero statements. -/
theorem C6_counterexample :
    scanContent ("a.php".toList) ("a.php".toList) [("$x = 1; var_dump($x);".toList)] = [] ∧
    quickCheck ("$x = 1; var_dump($x);".toList) = false ∧
    (segmentsOf ("$x = 1; var_dump($x);".toList)).map
      (fun g => (matchTypeFromText g.text).isSome) = [false, true] :=
  ⟨by decide, by decide, by decide⟩

/-- C6 (amended): the quick pre-filter is the anchored classifier applied to
the whole sanitized line, so a line is passed to segmentation only when its
sanitized text begins (after optional whitespace) with a recognizable debug
token: any line that produces statements passes the filter, the filter
equals the anchored matcher, and on a line that does start with a debug
call, later segments are still reported (`echo $a; print_r($b);` yields
two statements at their true columns). -/
theorem C6_quickfilter_amended :
    (∀ (fp rp : List Char) (ln : Nat) (st : ScanSt) (orig : List Char),
       (processLine fp rp ln st orig).1 ≠ [] → quickCheck (sanitizedLineOf st orig) = true) ∧
    (∀ line : List Char, quickCheck line = (matchTypeFromText line).isSome) ∧
    (scanContent ("a.php".toList) ("a.php".toList) [("echo $a; print_r($b);".toList)]).map
      (fun s => (s.type, s.column, s.content)) =
      [(.echo, (0 : Int), ("echo $a;".toList)),
       (.print_r, (9 : Int), ("print_r($b);".toList))] := by
  refine ⟨?_, fun _ => rfl, by decide⟩
  intro fp rp ln st orig
  unfold processLine sanitizedLineOf
  cases hsl : stripLeadBlock st.inBlockComment orig with
  | mk o b2 =>
    cases o with
    | none => intro h; exact absurd rfl h
    | some lts0 =>
      by_cases hcl : isCommentLine lts0 = true
      · simp [hcl]
      · simp only [Bool.not_eq_true] at hcl
        simp only [hcl, Bool.false_eq_true, if_false]
        by_cases hqc :
            quickCheck (sanitizeGo st.strState false (stripMidBlock b2 lts0).1).1 = true
        · intro _; exact hqc
        · simp only [Bool.not_eq_true] at hqc
          simp [hqc]

theorem C6_witness :
    quickCheck (sanitizedLineOf ⟨false, none⟩ ("echo $a;".toList)) = true :=
  C6_quickfilter_amended.1 [] [] 1 ⟨false, none⟩ ("echo $a;".toList) (by decide)

/-! ## C2 -/

theorem scanFilesGo_spec (maxSize : Nat) (files : List FileEntry) :
    scanFilesGo maxSize files =
      ((files.filter (fun f => decide (f.size ≤ maxSize))).flatMap
         (fun f => scanContent f.path f.path f.lines),
       (files.filter (fun f => decide (maxSize < f.size))).map
         (fun f => ⟨f.path, ScanErrKind.fileTooLarge f.size⟩),
       files.length) := by
  induction files with
  | nil => rfl
  | cons f rest ih =>
    by_cases h : f.size > maxSize
    · have h' : ¬ f.size ≤ maxSize := Nat.not_le.mpr h
      simp only [scanFilesGo, ih, scanFileM, h, if_true, List.filter_cons,
        decide_eq_true_eq, h', if_false, List.map_cons, List.length_cons]
    · have h' : f.size ≤ maxSize := Nat.not_lt.mp h
      simp only [scanFilesGo, ih, scanFileM, h, if_false, List.filter_cons,
        decide_eq_true_eq, h', if_true, List.flatMap_cons, List.length_cons]

/-- C2: in `scanFiles` a too-large file fails with the FileTooLarge error,
is recorded as a per-file scan error, contributes zero statements and does
not disturb the other files of the batch (their statements form the
aggregate, and every attempted file is counted); but in `scanWorkspace` the
same failure is NOT caught — the error propagates and aborts the whole
scan, as the concrete two-file batch shows (`scanFiles` on the identical
input isolates the failure). -/
theorem C2_size_gate_isolation :
    (∀ (maxSize : Nat) (excl : List Char → Bool) (elapsed : Nat) (files : List FileEntry),
       (scanFilesM false maxSize excl elapsed files).errors =
         (((files.filter (fun f => phpTarget excl f.path)).filter
             (fun f => decide (maxSize < f.size))).map
           (fun f => ⟨f.path, ScanErrKind.fileTooLarge f.size⟩)) ∧
       (scanFilesM false maxSize excl elapsed files).statements =
         sortStmts (((files.filter (fun f => phpTarget excl f.path)).filter
             (fun f => decide (f.size ≤ maxSize))).flatMap
           (fun f => scanContent f.path f.path f.lines)) ∧
       (scanFilesM false maxSize excl elapsed files).scannedFiles =
         (files.filter (fun f => phpTarget excl f.path)).length) ∧
    scanWorkspaceM false 100 7
        [⟨"a.php".toList, 10, [("var_dump($x);".toList)]⟩, ⟨"b.php".toList, 1000, []⟩] =
      .error (.fileTooLarge 1000) ∧
    (scanFilesM false 100 (fun _ => false) 7
        [⟨"a.php".toList, 10, [("var_dump($x);".toList)]⟩,
         ⟨"b.php".toList, 1000, []⟩]).errors =
      [⟨"b.php".toList, .fileTooLarge 1000⟩] ∧
    (scanFilesM false 100 (fun _ => false) 7
        [⟨"a.php".toList, 10, [("var_dump($x);".toList)]⟩,
         ⟨"b.php".toList, 1000, []⟩]).statements =
      scanContent ("a.php".toList) ("a.php".toList) [("var_dump($x);".toList)] ∧
    (scanFilesM false 100 (fun _ => false) 7
        [⟨"a.php".toList, 10, [("var_dump($x);".toList)]⟩,
         ⟨"b.php".toList, 1000, []⟩]).scannedFiles = 2 := by
  refine ⟨?_, by rfl, by decide, by decide, by decide⟩
  intro maxSize excl elapsed files
  simp only [scanFilesM, Bool.false_eq_true, if_false, scanFilesGo_spec]
  exact ⟨by trivial, by trivial, by trivial⟩

/-! ## C3 -/

/-- C3: every completed scan returns its statements sorted by file path
(lexicographically) and, within a path, by ascending line number — for
`scanFiles` always, and for `scanWorkspace` whenever it completes with a
result.  (Both scan functions are pure functions of their inputs in this
model, so the order is deterministic across repeated scans of the same
inputs by construction; the cache returns the previously computed list
unchanged.) -/
theorem C3_result_ordering :
    (∀ (inprog : Bool) (maxSize : Nat) (excl : List Char → Bool) (elapsed : Nat)
       (files : List FileEntry),
       List.Pairwise stmtLe (scanFilesM inprog maxSize excl elapsed files).statements) ∧
    (∀ (inprog : Bool) (maxSize elapsed : Nat) (files : List FileEntry) (r : ScanResult),
       scanWorkspaceM inprog maxSize elapsed files = .ok r →
       List.Pairwise stmtLe r.statements) := by
  constructor
  · intro inprog maxSize excl elapsed files
    cases inprog with
    | true => exact List.Pairwise.nil
    | false =>
      simp only [scanFilesM, Bool.false_eq_true, if_false]
      exact List.sorted_insertionSort stmtLe _
  · intro inprog maxSize elapsed files r hr
    cases inprog with
    | true =>
      simp only [scanWorkspaceM, if_true, Except.ok.injEq] at hr
      rw [← hr]
      exact List.Pairwise.nil
    | false =>
      simp only [scanWorkspaceM, Bool.false_eq_true, if_false] at hr
      cases hgo : scanWorkspaceGo maxSize files with
      | error e => rw [hgo] at hr; simp at hr
      | ok p =>
        rw [hgo] at hr
        simp only [Except.ok.injEq] at hr
        rw [← hr]
        exact List.sorted_insertionSort stmtLe _

theorem C3_witness : List.Pairwise stmtLe emptyScanResult.statements :=
  C3_result_ordering.2 false 0 0 [] emptyScanResult rfl

/-! ## C8 -/

theorem braceDelta_append (a b : List Char) :
    braceDelta (a ++ b) = braceDelta a + braceDelta b := by
  induction a with
  | nil => simp [braceDelta]
  | cons c cs ih =>
    rw [List.cons_append]
    show braceCharDelta c + braceDelta (cs ++ b) = braceCharDelta c + braceDelta cs + braceDelta b
    rw [ih, Int.add_assoc]

theorem braceLine_cons (b : Int) (c : Char) (cs : List Char) :
    braceLine b (c :: cs) =
      if b + braceCharDelta c < 0 then none else braceLine (b + braceCharDelta c) cs := by
  simp only [braceLine, braceCharDelta]
  by_cases h1 : (c == obrace) = true
  · simp [h1]
  · simp only [Bool.not_eq_true] at h1
    by_cases h2 : (c == cbrace) = true
    · simp only [h1, Bool.false_eq_true, if_false, h2, if_true]
      rw [Int.sub_eq_add_neg]
    · simp only [Bool.not_eq_true] at h2
      simp [h1, h2]

theorem braceDelta_take_succ (m : Nat) (c : Char) (cs : List Char) :
    braceDelta (List.take (m + 1) (c :: cs)) = braceCharDelta c + braceDelta (List.take m cs) := by
  rw [List.take_succ_cons]
  rfl

theorem braceLine_some_spec :
    ∀ (l : List Char) (b b' : Int), 0 ≤ b → braceLine b l = some b' →
      b' = b + braceDelta l ∧ 0 ≤ b' ∧ ∀ m, 0 ≤ b + braceDelta (l.take m) := by
  intro l
  induction l with
  | nil =>
    intro b b' hb h
    simp only [braceLine, Option.some.injEq] at h
    subst h
    refine ⟨by simp [braceDelta], hb, fun m => ?_⟩
    simp only [List.take_nil]
    show 0 ≤ b + braceDelta []
    simp only [braceDelta, Int.add_zero]
    exact hb
  | cons c cs ih =>
    intro b b' hb h
    rw [braceLine_cons] at h
    split at h
    · exact absurd h (by simp)
    next hlt =>
      have hb1 : 0 ≤ b + braceCharDelta c := le_of_not_lt hlt
      obtain ⟨h1, h2, h3⟩ := ih _ _ hb1 h
      refine ⟨?_, h2, ?_⟩
      · show b' = b + (braceCharDelta c + braceDelta cs)
        omega
      · intro m
        cases m with
        | zero =>
          simp only [List.take_zero]
          show 0 ≤ b + braceDelta []
          simp only [braceDelta, Int.add_zero]
          exact hb
        | succ m' =>
          have := h3 m'
          rw [braceDelta_take_succ]
          omega

theorem braceLine_none_spec :
    ∀ (l : List Char) (b : Int), 0 ≤ b → braceLine b l = none →
      ∃ m, b + braceDelta (l.take m) < 0 := by
  intro l
  induction l with
  | nil => intro b hb h; simp [braceLine] at h
  | cons c cs ih =>
    intro b hb h
    rw [braceLine_cons] at h
    split at h
    next hlt =>
      refine ⟨1, ?_⟩
      rw [braceDelta_take_succ]
      simp only [List.take_zero]
      show b + (braceCharDelta c + braceDelta []) < 0
      simp only [braceDelta]
      omega
    next hlt =>
      obtain ⟨m, hm⟩ := ih _ (le_of_not_lt hlt) h
      refine ⟨m + 1, ?_⟩
      rw [braceDelta_take_succ]
      omega

theorem braceLine_some_of_nonneg :
    ∀ (l : List Char) (b : Int), (∀ m, 0 ≤ b + braceDelta (l.take m)) →
      braceLine b l = some (b + braceDelta l) := by
  intro l
  induction l with
  | nil =>
    intro b _
    simp [braceLine, braceDelta]
  | cons c cs ih =>
    intro b hm
    have h1 : 0 ≤ b + braceCharDelta c := by
      have := hm 1
      rw [braceDelta_take_succ] at this
      simp only [List.take_zero] at this
      have e : braceDelta ([] : List Char) = 0 := rfl
      omega
    rw [braceLine_cons, if_neg (not_lt.mpr h1), ih]
    · show _ = some (b + (braceCharDelta c + braceDelta cs))
      congr 1
      omega
    · intro m
      have := hm (m + 1)
      rw [braceDelta_take_succ] at this
      omega

theorem prefixBal_zero (b : Int) (l : List Char) (rest : List (List Char)) (m : Nat) :
    b + braceDelta (((l :: rest).take 0).flatten ++ ((l :: rest).getD 0 []).take m) =
      b + braceDelta (l.take m) := by
  simp

theorem prefixBal_succ (b : Int) (l : List Char) (rest : List (List Char)) (j m : Nat) :
    b + braceDelta (((l :: rest).take (j + 1)).flatten ++ ((l :: rest).getD (j + 1) []).take m) =
      (b + braceDelta l) + braceDelta ((rest.take j).flatten ++ (rest.getD j []).take m) := by
  rw [List.take_succ_cons, List.getD_cons_succ, List.flatten_cons, List.append_assoc,
    braceDelta_append]
  omega

theorem totalBal_cons (b : Int) (l : List Char) (rest : List (List Char)) :
    b + braceDelta (l :: rest).flatten = (b + braceDelta l) + braceDelta rest.flatten := by
  rw [List.flatten_cons, braceDelta_append]
  omega

theorem checkLinesGo_ok_iff :
    ∀ (ls : List (List Char)) (b : Int) (i : Nat), 0 ≤ b →
      (checkLinesGo b i ls = .ok ↔
        ((∀ j m, ¬ (b + braceDelta ((ls.take j).flatten ++ (ls.getD j []).take m) < 0)) ∧
         b + braceDelta ls.flatten = 0)) := by
  intro ls
  induction ls with
  | nil =>
    intro b i hb
    constructor
    · intro h
      have hb0 : b = 0 := by
        by_contra hz
        have hne : (b != 0) = true := bne_iff_ne.mpr hz
        simp [checkLinesGo, hne] at h
      subst hb0
      refine ⟨fun j m => ?_, by simp [braceDelta]⟩
      simp [braceDelta]
    · rintro ⟨hpre, htot⟩
      have hb0 : b = 0 := by simpa [braceDelta] using htot
      simp [checkLinesGo, hb0]
  | cons l rest ih =>
    intro b i hb
    simp only [checkLinesGo]
    cases hbl : braceLine b l with
    | none =>
      obtain ⟨m, hm⟩ := braceLine_none_spec l b hb hbl
      constructor
      · intro h
        exact absurd h (by simp)
      · rintro ⟨hpre, htot⟩
        exact absurd (by rw [prefixBal_zero]; exact hm) (hpre 0 m)
    | some b' =>
      obtain ⟨hb'1, hb'2, hb'3⟩ := braceLine_some_spec l b b' hb hbl
      rw [ih b' (i + 1) hb'2]
      constructor
      · rintro ⟨hpre, htot⟩
        constructor
        · intro j m
          cases j with
          | zero =>
            rw [prefixBal_zero]
            exact not_lt.mpr (hb'3 m)
          | succ j' =>
            rw [prefixBal_succ]
            rw [← hb'1]
            exact hpre j' m
        · rw [totalBal_cons, ← hb'1]
          exact htot
      · rintro ⟨hpre, htot⟩
        constructor
        · intro j m
          have := hpre (j + 1) m
          rw [prefixBal_succ, ← hb'1] at this
          exact this
        · have := htot
          rw [totalBal_cons, ← hb'1] at this
          exact this

theorem checkLinesGo_closeAt_iff :
    ∀ (ls : List (List Char)) (b : Int) (i n : Nat), 0 ≤ b →
      (checkLinesGo b i ls = .closeAt n ↔
        ∃ j, n = i + j + 1 ∧
          (∃ m, b + braceDelta ((ls.take j).flatten ++ (ls.getD j []).take m) < 0) ∧
          (∀ j' m, j' < j →
            ¬ (b + braceDelta ((ls.take j').flatten ++ (ls.getD j' []).take m) < 0))) := by
  intro ls
  induction ls with
  | nil =>
    intro b i n hb
    constructor
    · intro h
      exfalso
      by_cases hz : (b != 0) = true
      · simp [checkLinesGo, hz] at h
      · simp only [Bool.not_eq_true] at hz
        simp [checkLinesGo, hz] at h
    · rintro ⟨j, hn, ⟨m, hm⟩, hmin⟩
      exfalso
      simp only [List.take_nil, List.flatten_nil, List.getD_nil, List.nil_append] at hm
      simp [braceDelta] at hm
      omega
  | cons l rest ih =>
    intro b i n hb
    simp only [checkLinesGo]
    cases hbl : braceLine b l with
    | none =>
      obtain ⟨m0, hm0⟩ := braceLine_none_spec l b hb hbl
      constructor
      · intro h
        have hn : n = i + 1 := by
          have := h
          simp only [BraceCheck.closeAt.injEq] at this
          omega
        refine ⟨0, by omega, ⟨m0, by rw [prefixBal_zero]; exact hm0⟩, ?_⟩
        intro j' m hj'
        exact absurd hj' (Nat.not_lt_zero j')
      · rintro ⟨j, hn, ⟨m, hm⟩, hmin⟩
        cases j with
        | zero =>
          simp only [BraceCheck.closeAt.injEq]
          omega
        | succ j' =>
          exfalso
          exact absurd (by rw [prefixBal_zero]; exact hm0) (hmin 0 m0 (Nat.succ_pos j'))
    | some b' =>
      obtain ⟨hb'1, hb'2, hb'3⟩ := braceLine_some_spec l b b' hb hbl
      rw [ih b' (i + 1) n hb'2]
      constructor
      · rintro ⟨j, hn, ⟨m, hm⟩, hmin⟩
        refine ⟨j + 1, by omega, ⟨m, ?_⟩, ?_⟩
        · rw [prefixBal_succ, ← hb'1]
          exact hm
        · intro j' m' hj'
          cases j' with
          | zero =>
            rw [prefixBal_zero]
            exact not_lt.mpr (hb'3 m')
          | succ j'' =>
            rw [prefixBal_succ, ← hb'1]
            exact hmin j'' m' (by omega)
      · rintro ⟨j, hn, ⟨m, hm⟩, hmin⟩
        cases j with
        | zero =>
          exfalso
          rw [prefixBal_zero] at hm
          exact absurd hm (not_lt.mpr (hb'3 m))
        | succ j' =>
          refine ⟨j', by omega, ⟨m, ?_⟩, ?_⟩
          · rw [prefixBal_succ, ← hb'1] at hm
            exact hm
          · intro j'' m' hj''
            have := hmin (j'' + 1) m' (by omega)
            rw [prefixBal_succ, ← hb'1] at this
            exact this

/-- C8: insertion-point resolution is gated by the whole-document
brace-balance check, which fails before any plan is computed when the
document is unbalanced: when the check reports an unmatched `}` or a
non-zero net balance, `resolve` returns that error and no plan; the check
returns `ok` exactly when no character prefix of the document has negative
running balance and the net balance is zero; a `closeAt n` failure cites
exactly the first line containing a closing brace with no matching open;
and a document with an extra unmatched `}` on line 10 fails citing line
10. -/
theorem C8_brace_gate :
    (∀ (opts : EditorOpts) (doc : List (List Char)) (selLine selChar n : Nat),
       checkBraceBalance doc = .closeAt n →
       resolveInsertion opts doc selLine selChar = .error (.closeAt n)) ∧
    (∀ (opts : EditorOpts) (doc : List (List Char)) (selLine selChar : Nat),
       checkBraceBalance doc = .unbalanced →
       resolveInsertion opts doc selLine selChar = .error .unbalanced) ∧
    (∀ doc : List (List Char),
       checkBraceBalance doc = .ok ↔
         ((∀ j m, ¬ docBadPrefix doc j m) ∧ braceDelta doc.flatten = 0)) ∧
    (∀ (doc : List (List Char)) (n : Nat),
       checkBraceBalance doc = .closeAt n ↔
         ∃ j, n = j + 1 ∧ (∃ m, docBadPrefix doc j m) ∧
           (∀ j' m, j' < j → ¬ docBadPrefix doc j' m)) ∧
    checkBraceBalance (List.replicate 9 ([] : List Char) ++ [[cbrace]]) = .closeAt 10 ∧
    resolveInsertion ⟨true, some 4⟩ (List.replicate 9 ([] : List Char) ++ [[cbrace]]) 0 0 =
      .error (.closeAt 10) := by
  refine ⟨?_, ?_, ?_, ?_, by decide, by rfl⟩
  · intro opts doc selLine selChar n h
    simp [resolveInsertion, h]
  · intro opts doc selLine selChar h
    simp [resolveInsertion, h]
  · intro doc
    have := checkLinesGo_ok_iff doc 0 0 le_rfl
    simpa [checkBraceBalance, docBadPrefix, Int.zero_add] using this
  · intro doc n
    have := checkLinesGo_closeAt_iff doc 0 0 n le_rfl
    simpa [checkBraceBalance, docBadPrefix, Int.zero_add] using this

theorem C8_witness :
    resolveInsertion ⟨true, some 4⟩ (List.replicate 9 ([] : List Char) ++ [[cbrace]]) 3 0 =
      .error (.closeAt 10) :=
  C8_brace_gate.1 ⟨true, some 4⟩ _ 3 0 10 (by decide)

/-! ## C10 -/

theorem clearStatement_bookmarks (st : ProviderSt) (s : Stmt) :
    (clearStatement st s).2.bookmarks = st.bookmarks := by
  unfold clearStatement
  by_cases h : isBookmarkedIn st s.id = true
  · simp [h]
  · simp only [Bool.not_eq_true] at h
    have hmem : s.id ∉ st.bookmarks := by
      simpa [isBookmarkedIn] using h
    simp only [h, Bool.false_eq_true, if_false]
    cases fsysLookup st.fsys s.filePath with
    | none => rfl
    | some lines =>
      by_cases hr : s.lineNumber - 1 < lines.length
      · simp [hr, List.erase_of_not_mem hmem]
      · simp [hr]

theorem clearListGo_bookmarks (l : List Stmt) :
    ∀ st : ProviderSt, (clearListGo st l).2.bookmarks = st.bookmarks := by
  induction l with
  | nil => intro st; rfl
  | cons s rest ih =>
    intro st
    simp only [clearListGo]
    rw [ih, clearStatement_bookmarks]

/-- C10: every clear operation protects bookmarked statements as records:
`clearStatement` on a bookmarked statement returns `false` and changes
nothing; `clearFileStatements` and `clearAllStatements` never process a
bookmarked statement (their result is unchanged when bookmarked statements
are removed from the input, so none is counted) and the bookmark set
survives every clear.  But the protection does NOT extend to the bookmarked
statement's text: clearing deletes whole lines, so at the failing input —
one line `echo $a; print_r($b);` carrying two scanned statements of which
the `print_r` (id `a.php:1:9`) is bookmarked — `clearFileStatements`
reports 1 cleared and leaves the file empty: the line holding the
bookmarked statement has been deleted, contradicting the code's own
bookmark-protection comment and the README. -/
theorem C10_bookmark_protection :
    (∀ (st : ProviderSt) (s : Stmt), isBookmarkedIn st s.id = true →
       clearStatement st s = (false, st)) ∧
    (∀ (st : ProviderSt) (allStmts : List Stmt) (fp : List Char),
       clearFileStatements st allStmts fp =
         clearFileStatements st (allStmts.filter (fun s => !(isBookmarkedIn st s.id))) fp) ∧
    (∀ (st : ProviderSt) (allStmts : List Stmt),
       clearAllStatements st allStmts =
         clearAllStatements st (allStmts.filter (fun s => !(isBookmarkedIn st s.id)))) ∧
    (∀ (st : ProviderSt) (allStmts : List Stmt) (fp : List Char),
       (clearFileStatements st allStmts fp).2.bookmarks = st.bookmarks) ∧
    ((scanContent ("a.php".toList) ("a.php".toList) [("echo $a; print_r($b);".toList)]).map
       (fun s => s.id) =
     [(("a.php".toList), 1, (0 : Int)), (("a.php".toList), 1, (9 : Int))]) ∧
    (clearFileStatements
        ⟨[(("a.php".toList), 1, (9 : Int))],
         [(("a.php".toList), [("echo $a; print_r($b);".toList)])]⟩
        (scanContent ("a.php".toList) ("a.php".toList) [("echo $a; print_r($b);".toList)])
        ("a.php".toList)).1 = 1 ∧
    (clearFileStatements
        ⟨[(("a.php".toList), 1, (9 : Int))],
         [(("a.php".toList), [("echo $a; print_r($b);".toList)])]⟩
        (scanContent ("a.php".toList) ("a.php".toList) [("echo $a; print_r($b);".toList)])
        ("a.php".toList)).2.fsys = [(("a.php".toList), [])] := by
  refine ⟨?_, ?_, ?_, ?_, by decide, by decide, by decide⟩
  · intro st s h
    unfold clearStatement
    simp [h]
  · intro st allStmts fp
    unfold clearFileStatements
    simp only [List.filter_filter]
    congr 1
    congr 1
    refine List.filter_congr ?_
    intro x _
    cases h1 : isBookmarkedIn st x.id <;> cases h2 : (x.filePath == fp) <;> simp [h1, h2]
  · intro st allStmts
    unfold clearAllStatements
    simp only [List.filter_filter]
    congr 1
    congr 1
    refine List.filter_congr ?_
    intro x _
    cases h1 : isBookmarkedIn st x.id <;> simp [h1]
  · intro st allStmts fp
    unfold clearFileStatements
    exact clearListGo_bookmarks _ st

theorem C10_witness :
    clearStatement ⟨[(("a.php".toList), 1, (9 : Int))], []⟩
        (createDebugStatement ("a.php".toList) ("a.php".toList) 1 9
          ("print_r($b);".toList) ("echo $a; print_r($b);".toList) .print_r .info) =
      (false, ⟨[(("a.php".toList), 1, (9 : Int))], []⟩) :=
  C10_bookmark_protection.1 _ _ (by decide)

/-! ## C5 (amended) and supporting lemmas -/

theorem startsWithSeq_iff : ∀ p s : List Char, startsWithSeq p s = true ↔ p <+: s := by
  intro p
  induction p with
  | nil => intro s; simp [startsWithSeq, List.nil_prefix]
  | cons a p' ih =>
    intro s
    cases s with
    | nil =>
      simp only [startsWithSeq, Bool.false_eq_true, false_iff]
      intro h
      exact absurd (List.prefix_nil.mp h) (by simp)
    | cons c cs =>
      simp [startsWithSeq, Bool.and_eq_true, beq_iff_eq, ih, List.cons_prefix_cons]

theorem containsSeq_iff : ∀ (t s : List Char), containsSeq t s = true ↔ t <:+: s := by
  intro t s
  induction s with
  | nil =>
    simp only [containsSeq, startsWithSeq_iff, List.prefix_nil, List.infix_nil]
  | cons c cs ih =>
    simp only [containsSeq, Bool.or_eq_true, startsWithSeq_iff, ih, List.infix_cons_iff]

theorem toLower_ws {c : Char} (h : isWS c = true) : Char.toLower c = c := by
  simp only [isWS, Bool.or_eq_true, beq_iff_eq] at h
  rcases h with ((((h | h) | h) | h) | h) | h <;> subst h <;> decide

theorem trimWS_decomp (s : List Char) :
    ∃ pre post, s = pre ++ trimWS s ++ post ∧
      (∀ c ∈ pre, isWS c = true) ∧ (∀ c ∈ post, isWS c = true) := by
  refine ⟨List.takeWhile isWS s, ((List.dropWhile isWS s).reverse.takeWhile isWS).reverse,
    ?_, ?_, ?_⟩
  · have hmid : List.dropWhile isWS s =
        trimWS s ++ ((List.dropWhile isWS s).reverse.takeWhile isWS).reverse := by
      have h1 : List.dropWhile isWS s = (List.dropWhile isWS s).reverse.reverse :=
        (List.reverse_reverse _).symm
      have h2 : (List.dropWhile isWS s).reverse =
          List.takeWhile isWS (List.dropWhile isWS s).reverse ++
            List.dropWhile isWS (List.dropWhile isWS s).reverse :=
        (List.takeWhile_append_dropWhile isWS _).symm
      calc List.dropWhile isWS s
          = (List.dropWhile isWS s).reverse.reverse := h1
        _ = (List.takeWhile isWS (List.dropWhile isWS s).reverse ++
              List.dropWhile isWS (List.dropWhile isWS s).reverse).reverse := by rw [← h2]
        _ = (List.dropWhile isWS (List.dropWhile isWS s).reverse).reverse ++
              (List.takeWhile isWS (List.dropWhile isWS s).reverse).reverse := by
            rw [List.reverse_append]
        _ = trimWS s ++ ((List.dropWhile isWS s).reverse.takeWhile isWS).reverse := rfl
    conv_lhs => rw [← List.takeWhile_append_dropWhile isWS s, hmid]
    rw [List.append_assoc]
  · intro c hc
    exact List.mem_takeWhile_imp hc
  · intro c hc
    exact List.mem_takeWhile_imp (List.mem_reverse.mp hc)

theorem infix_drop_ws_left :
    ∀ (a : List Char) {t b : List Char}, (∀ c ∈ a, isWS c = true) →
      (∀ c ∈ t, isWS c = false) → t ≠ [] → t <:+: a ++ b → t <:+: b := by
  intro a
  induction a with
  | nil => intro t b _ _ _ h; simpa using h
  | cons c a' ih =>
    intro t b hws ht hne h
    rw [List.cons_append, List.infix_cons_iff] at h
    rcases h with h | h
    · exfalso
      cases t with
      | nil => exact hne rfl
      | cons t0 ts =>
        have := List.cons_prefix_cons.mp h
        have hfalse := ht t0 (List.mem_cons_self t0 ts)
        rw [this.1] at hfalse
        rw [hws c (List.mem_cons_self c a')] at hfalse
        exact absurd hfalse (by simp)
    · exact ih (fun x hx => hws x (List.mem_cons_of_mem _ hx)) ht hne h

theorem infix_drop_ws_right :
    ∀ {a t : List Char} (b : List Char), (∀ c ∈ b, isWS c = true) →
      (∀ c ∈ t, isWS c = false) → t ≠ [] → t <:+: a ++ b → t <:+: a := by
  intro a t b hws ht hne h
  have h' : t.reverse <:+: b.reverse ++ a.reverse := by
    rw [← List.reverse_append]
    exact List.reverse_infix.mpr h
  have hres : t.reverse <:+: a.reverse :=
    infix_drop_ws_left b.reverse (fun c hc => hws c (List.mem_reverse.mp hc))
      (fun c hc => ht c (List.mem_reverse.mp hc))
      (fun hz => hne (by simpa using congrArg List.reverse hz)) h'
  have := List.reverse_infix.mpr hres
  simpa using this

theorem containsSeq_map_trim (t x : List Char) (hne : t ≠ [])
    (ht : ∀ c ∈ t, isWS c = false) :
    containsSeq t ((trimWS x).map Char.toLower) = containsSeq t (x.map Char.toLower) := by
  rw [Bool.eq_iff_iff, containsSeq_iff, containsSeq_iff]
  obtain ⟨pre, post, hdec, hpre, hpost⟩ := trimWS_decomp x
  have hpre' : ∀ c ∈ pre.map Char.toLower, isWS c = true := by
    intro c hc
    obtain ⟨c0, hc0, rfl⟩ := List.mem_map.mp hc
    rw [toLower_ws (hpre c0 hc0)]
    exact hpre c0 hc0
  have hpost' : ∀ c ∈ post.map Char.toLower, isWS c = true := by
    intro c hc
    obtain ⟨c0, hc0, rfl⟩ := List.mem_map.mp hc
    rw [toLower_ws (hpost c0 hc0)]
    exact hpost c0 hc0
  constructor
  · intro h
    refine h.trans ?_
    conv_rhs => rw [hdec]
    rw [List.map_append, List.map_append]
    exact List.infix_append _ _ _
  · intro h
    rw [hdec, List.map_append, List.map_append] at h
    rw [List.append_assoc] at h
    have h1 := infix_drop_ws_left (pre.map Char.toLower) hpre' ht hne h
    exact infix_drop_ws_right (post.map Char.toLower) hpost' ht hne h1

theorem getStatementSeverity_trim (x : List Char) :
    getStatementSeverity (trimWS x) = getStatementSeverity x := by
  simp only [getStatementSeverity]
  rw [containsSeq_map_trim tokDie x (by decide) (by decide),
      containsSeq_map_trim tokExit x (by decide) (by decide),
      containsSeq_map_trim tokDD x (by decide) (by decide),
      containsSeq_map_trim tokErrorLog x (by decide) (by decide),
      containsSeq_map_trim tokTriggerError x (by decide) (by decide),
      containsSeq_map_trim tokUserError x (by decide) (by decide)]

theorem singleStmt_sev {fp rp : List Char} {ln : Nat} {orig : List Char} {seg : Seg} {s : Stmt}
    (hs : s ∈ singleStmt fp rp ln orig seg) :
    s.severity = getStatementSeverity s.content := by
  unfold singleStmt at hs
  split at hs
  · rw [List.mem_singleton] at hs
    subst hs
    show getStatementSeverity _ = getStatementSeverity (trimWS _)
    rw [getStatementSeverity_trim]
  · simp at hs

theorem mergedStmt_sev (fp rp : List Char) (ln : Nat) (orig : List Char) (seg : Seg) :
    (mergedStmt fp rp ln orig seg).severity =
      getStatementSeverity (mergedStmt fp rp ln orig seg).content := by
  show getStatementSeverity _ = getStatementSeverity (trimWS _)
  rw [getStatementSeverity_trim]

theorem processSegs_sev (fp rp : List Char) (ln : Nat) (orig : List Char) :
    ∀ (segs : List Seg) (s : Stmt), s ∈ processSegs fp rp ln orig segs →
      s.severity = getStatementSeverity s.content := by
  have H : ∀ (n : Nat) (segs : List Seg), segs.length ≤ n →
      ∀ s ∈ processSegs fp rp ln orig segs, s.severity = getStatementSeverity s.content := by
    intro n
    induction n with
    | zero =>
      intro segs hlen s hs
      rw [Nat.le_zero, List.length_eq_zero] at hlen
      subst hlen
      simp [processSegs] at hs
    | succ n ih =>
      intro segs hlen s hs
      match segs with
      | [] => simp [processSegs] at hs
      | [seg] => exact singleStmt_sev hs
      | seg :: next :: rest =>
        rw [processSegs] at hs
        split at hs
        · rw [List.mem_cons] at hs
          rcases hs with rfl | hs
          · exact mergedStmt_sev fp rp ln orig seg
          · refine ih rest ?_ s hs
            simp only [List.length_cons] at hlen
            omega
        · rw [List.mem_append] at hs
          rcases hs with hs | hs
          · exact singleStmt_sev hs
          · refine ih (next :: rest) ?_ s hs
            simp only [List.length_cons] at hlen ⊢
            omega
  intro segs s hs
  exact H segs.length segs le_rfl s hs

theorem processLine_sev {fp rp : List Char} {ln : Nat} {st : ScanSt} {orig : List Char}
    {s : Stmt} (hs : s ∈ (processLine fp rp ln st orig).1) :
    s.severity = getStatementSeverity s.content := by
  unfold processLine at hs
  split at hs
  · simp at hs
  · split at hs
    · simp at hs
    · dsimp only at hs
      split at hs
      · exact processSegs_sev fp rp ln orig _ s hs
      · simp at hs

theorem scanLinesGo_sev (fp rp : List Char) :
    ∀ (lines : List (List Char)) (ln : Nat) (st : ScanSt) (s : Stmt),
      s ∈ scanLinesGo fp rp ln st lines → s.severity = getStatementSeverity s.content := by
  intro lines
  induction lines with
  | nil => intro ln st s hs; simp [scanLinesGo] at hs
  | cons l rest ih =>
    intro ln st s hs
    simp only [scanLinesGo, List.mem_append] at hs
    rcases hs with hs | hs
    · exact processLine_sev hs
    · exact ih _ _ s hs

/-- C5 (amended): `severity` is a pure function of the statement's recorded
`content`, computed by case-insensitive substring containment rather than by
call structure: it is `error` exactly when the lowercased content contains
`die`, `exit` or `dd` anywhere (even inside an identifier such as `$add`),
`warning` exactly when it is not `error` and contains `error_log`,
`trigger_error` or `user_error`, and `info` otherwise; every statement a
scan emits satisfies `severity = getStatementSeverity content`, and a plain
`var_dump($x);` whose content contains none of those substrings has
severity `info`. -/
theorem C5_severity_amended :
    (∀ c : List Char, getStatementSeverity c = .error ↔
       (containsSeq tokDie (c.map Char.toLower) || containsSeq tokExit (c.map Char.toLower) ||
        containsSeq tokDD (c.map Char.toLower)) = true) ∧
    (∀ c : List Char, getStatementSeverity c = .warning ↔
       ((containsSeq tokDie (c.map Char.toLower) || containsSeq tokExit (c.map Char.toLower) ||
         containsSeq tokDD (c.map Char.toLower)) = false ∧
        (containsSeq tokErrorLog (c.map Char.toLower) ||
         containsSeq tokTriggerError (c.map Char.toLower) ||
         containsSeq tokUserError (c.map Char.toLower)) = true)) ∧
    (∀ (fp rp : List Char) (lines : List (List Char)) (s : Stmt),
       s ∈ scanContent fp rp lines → s.severity = getStatementSeverity s.content) ∧
    (scanContent ("a.php".toList) ("a.php".toList) [("var_dump($x);".toList)]).map
      (fun s => (s.type, s.severity)) = [(.var_dump, .info)] := by
  refine ⟨?_, ?_, ?_, by decide⟩
  · intro c
    simp only [getStatementSeverity]
    split
    next h => simp [h]
    next h =>
      rw [Bool.not_eq_true] at h
      split <;> simp [h]
  · intro c
    simp only [getStatementSeverity]
    split
    next h => simp [h]
    next h =>
      rw [Bool.not_eq_true] at h
      split
      next h2 => simp [h, h2]
      next h2 =>
        rw [Bool.not_eq_true] at h2
        simp [h, h2]
  · intro fp rp lines s hs
    exact scanLinesGo_sev fp rp lines 1 ⟨false, none⟩ s hs

theorem C5_witness :
    (createDebugStatement ("a.php".toList) ("a.php".toList) 1 0 ("var_dump($add);".toList)
        ("var_dump($add);".toList) .var_dump .error).severity =
      getStatementSeverity
        (createDebugStatement ("a.php".toList) ("a.php".toList) 1 0 ("var_dump($add);".toList)
          ("var_dump($add);".toList) .var_dump .error).content :=
  C5_severity_amended.2.2.1 ("a.php".toList) ("a.php".toList) [("var_dump($add);".toList)] _
    (by decide)
